/-
Verification of the rooms/students load-then-aggregate-then-format pipeline
(`src/data_loader.py`, `src/queries.py`, `src/main.py`) against its design
specification.  The Python code is shallowly embedded: the PostgreSQL tables
become lists of records, the loader becomes a function that threads the
pending transaction state and emits a trace of executed row insertions plus
the final commit, the four aggregate queries become list computations whose
clauses mirror the SQL clause by clause, and the JSON/XML formatter becomes a
string-building function mirroring `json.dumps(..., indent=2)` and
`minidom.toprettyxml(indent="  ")`.
-/
import Mathlib

namespace InnowiseTask

/-! ### Calendar dates and PostgreSQL `AGE` arithmetic

`birthday` is stored as a `TIMESTAMP`; the input files carry midnight
timestamps, so only the calendar date is semantically relevant and a date is
modelled as year/month/day. -/

/-- A calendar date (the date part of the stored `TIMESTAMP`). -/
structure Date where
  year : Nat
  month : Nat
  day : Nat
deriving DecidableEq, Repr

/-- A date as actually stored: month in `1..12`, day within the month. -/
def Date.Valid (d : Date) : Prop :=
  1 ≤ d.month ∧ d.month ≤ 12 ∧ 1 ≤ d.day ∧ d.day ≤ 31

instance (d : Date) : Decidable d.Valid := by
  unfold Date.Valid; infer_instance

/-- Gregorian leap-year test, as in PostgreSQL's `isleap`. -/
def isLeap (y : Nat) : Bool :=
  y % 4 == 0 && (y % 100 != 0 || y % 400 == 0)

/-- Days in a month, as in PostgreSQL's `day_tab`. -/
def daysInMonth (y m : Nat) : Nat :=
  if m == 2 then (if isLeap y then 29 else 28)
  else if m == 4 || m == 6 || m == 9 || m == 11 then 30
  else 31

/-- Lexicographic order on dates: `a` is on or before `b`. -/
def dateLE (a b : Date) : Bool :=
  a.year < b.year ||
    (a.year == b.year &&
      (a.month < b.month || (a.month == b.month && a.day ≤ b.day)))

/-- The later of two dates (for SQL `MAX(s.birthday)`). -/
def dateMax (a b : Date) : Date := if dateLE a b then b else a

/-- The earlier of two dates (for SQL `MIN(s.birthday)`). -/
def dateMin (a b : Date) : Date := if dateLE a b then a else b

/-- `MAX` of a nonempty list of dates, given as head and tail. -/
def listMaxDate (d : Date) (l : List Date) : Date := l.foldl dateMax d

/-- `MIN` of a nonempty list of dates, given as head and tail. -/
def listMinDate (d : Date) (l : List Date) : Date := l.foldl dateMin d

/-- The month/day of `a` strictly precedes the month/day of `b`
(the carry condition of calendar-year subtraction). -/
def mdBefore (a b : Date) : Bool :=
  a.month < b.month || (a.month == b.month && a.day < b.day)

/-- PostgreSQL `AGE(a, b)` as the symbolic `(years, months, days)` interval:
field-wise differences followed by the day borrow (using the number of days
in the month of the earlier operand `b`) and then the month borrow.  For
stored (valid) dates with `b ≤ a` each of PostgreSQL's borrow loops runs at
most once, which is what is written here. -/
def ageYMD (a b : Date) : Int × Int × Int :=
  let dy : Int := (a.year : Int) - (b.year : Int)
  let dm : Int := (a.month : Int) - (b.month : Int)
  let dd : Int := (a.day : Int) - (b.day : Int)
  let p : Int × Int := if dd < 0 then (dm - 1, dd + (daysInMonth b.year b.month : Int)) else (dm, dd)
  let q : Int × Int := if p.1 < 0 then (dy - 1, p.1 + 12) else (dy, p.1)
  (q.1, q.2, p.2)

/-- `EXTRACT(YEAR FROM AGE(a, b))`: the years field of the interval. -/
def ageYears (a b : Date) : Int := (ageYMD a b).1

/-- The years field of `AGE(a, b)` is the proper calendar-year difference:
the year-field difference, minus one exactly when the month/day of `a`
precedes the month/day of `b` — not mere year-field subtraction. -/
theorem ageYears_eq_completedYears (a b : Date) :
    ageYears a b =
      (a.year : Int) - (b.year : Int) - (if mdBefore a b then 1 else 0) := by
  unfold ageYears ageYMD mdBefore
  rcases a with ⟨ya, ma, da⟩
  rcases b with ⟨yb, mb, db⟩
  simp only [Bool.or_eq_true, Bool.and_eq_true, decide_eq_true_eq, beq_iff_eq]
  by_cases hd : (da : Int) - (db : Int) < 0
  · by_cases hm : (ma : Int) - (mb : Int) - 1 < 0
    · have : ma < mb ∨ (ma = mb ∧ da < db) := by
        have hda : da < db := by omega
        have : ma ≤ mb := by omega
        omega
      simp only [if_pos hd, if_pos hm, if_pos this]
    · have : ¬ (ma < mb ∨ (ma = mb ∧ da < db)) := by omega
      simp only [if_pos hd, if_neg hm, if_neg this]; omega
  · have hda : ¬ da < db := by omega
    by_cases hm : (ma : Int) - (mb : Int) < 0
    · have : ma < mb ∨ (ma = mb ∧ da < db) := by omega
      simp only [if_neg hd, if_pos hm, if_pos this]
    · have : ¬ (ma < mb ∨ (ma = mb ∧ da < db)) := by omega
      simp only [if_neg hd, if_neg hm, if_neg this]; omega

/-! ### The stored tables -/

/-- A committed row of the `rooms` table. -/
structure Room where
  id : Int
  name : String
deriving DecidableEq, Repr

/-- A committed row of the `students` table. -/
structure Student where
  id : Int
  name : String
  room_id : Int
  sex : String
  birthday : Date
deriving DecidableEq, Repr

/-- The relational store: the two tables, rows in insertion order. -/
structure DB where
  rooms : List Room
  students : List Student
deriving DecidableEq, Repr

/-- Freshly created schema: both tables empty. -/
def emptyDB : DB := ⟨[], []⟩

/-- The primary keys present in `rooms`. -/
def roomIds (db : DB) : List Int := db.rooms.map Room.id

/-- The primary keys present in `students`. -/
def studentIds (db : DB) : List Int := db.students.map Student.id

/-- The students assigned to room `rid` (the join condition
`r.id = s.room_id`). -/
def studentsInRoom (db : DB) (rid : Int) : List Student :=
  db.students.filter (fun s => s.room_id == rid)

/-! ### The bulk loader (`src/data_loader.py`)

A parsed JSON record is a Python dict; only the keys the loader reads are
relevant, so a record is modelled by `Option`-valued fields: `none` means the
key is absent and the subscript `rec["key"]` raises `KeyError`.  `load_data`
reads both sources, inserts every room, inserts every student, and only then
calls `commit()`; each `INSERT ... ON CONFLICT (id) DO NOTHING` mutates the
pending transaction state, which becomes visible only at the commit.  The
loader is embedded as a function returning the trace of performed row
insertions (plus the final commit), the error if any (every failure in
`load_data` is logged and re-raised), and the resulting committed store. -/

/-- A parsed room record: the keys `id` and `name` may be absent. -/
structure RoomRec where
  id : Option Int
  name : Option String
deriving DecidableEq, Repr

/-- A parsed student record: the keys `id`, `name`, `room`, `sex`,
`birthday` may be absent. -/
structure StudentRec where
  id : Option Int
  name : Option String
  room : Option Int
  sex : Option String
  birthday : Option Date
deriving DecidableEq, Repr

/-- The ways a `load_data` call fails: an unreadable/unparsable source file,
a record missing a required key (the `KeyError`, logged together with the
offending record), or a foreign-key violation on a student insert. -/
inductive LoadError where
  | sourceReadError : LoadError
  | roomRecordError (r : RoomRec) : LoadError
  | studentRecordError (s : StudentRec) : LoadError
  | foreignKeyViolation (s : StudentRec) : LoadError
deriving DecidableEq, Repr

/-- An observable action of a `load_data` call: one row actually inserted
(conflicting ids insert nothing), or the single final transaction commit. -/
inductive Event where
  | insRoom (r : Room) : Event
  | insStudent (s : Student) : Event
  | commit : Event
deriving DecidableEq, Repr

/-- `_insert_rooms`: for each record in order, read `rec["id"]` and
`rec["name"]` (a missing key aborts the batch), then run
`INSERT INTO rooms (id, name) VALUES (...) ON CONFLICT (id) DO NOTHING`:
if the id is already present the row is skipped, otherwise it is appended. -/
def insert_rooms : List RoomRec → DB → List Event × Except LoadError DB
  | [], db => ([], Except.ok db)
  | r :: rs, db =>
    match r.id, r.name with
    | some i, some n =>
      if (roomIds db).contains i then
        insert_rooms rs db
      else
        let db' : DB := { db with rooms := db.rooms ++ [⟨i, n⟩] }
        let rest := insert_rooms rs db'
        (Event.insRoom ⟨i, n⟩ :: rest.1, rest.2)
    | _, _ => ([], Except.error (LoadError.roomRecordError r))

/-- `_insert_students`: for each record in order, read `rec["id"]`,
`rec["name"]`, `rec["room"]`, `rec["sex"]`, `rec["birthday"]` (a missing key
aborts the batch), then run `INSERT INTO students ... ON CONFLICT (id) DO
NOTHING`: a duplicate id inserts nothing (and the foreign key is not
checked), otherwise the foreign key `room_id REFERENCES rooms(id)` is checked
against the pending state and the row is appended. -/
def insert_students : List StudentRec → DB → List Event × Except LoadError DB
  | [], db => ([], Except.ok db)
  | s :: ss, db =>
    match s.id, s.name, s.room, s.sex, s.birthday with
    | some i, some n, some rm, some sx, some b =>
      if (studentIds db).contains i then
        insert_students ss db
      else if (roomIds db).contains rm then
        let st : Student := ⟨i, n, rm, sx, b⟩
        let db' : DB := { db with students := db.students ++ [st] }
        let rest := insert_students ss db'
        (Event.insStudent st :: rest.1, rest.2)
      else ([], Except.error (LoadError.foreignKeyViolation s))
    | _, _, _, _, _ => ([], Except.error (LoadError.studentRecordError s))

/-- `DataLoader.load_data`: read the rooms source, read the students source
(`none` models an unreadable source, `_read_json` re-raising), insert all
rooms, insert all students, then `self.db.connection.commit()`.  On any
failure the exception is re-raised and the transaction is never committed,
so the committed store is the input store. -/
def load_data (roomsSrc : Option (List RoomRec))
    (studentsSrc : Option (List StudentRec)) (db : DB) :
    List Event × Option LoadError × DB :=
  match roomsSrc, studentsSrc with
  | none, _ => ([], some LoadError.sourceReadError, db)
  | some _, none => ([], some LoadError.sourceReadError, db)
  | some rooms, some students =>
    match insert_rooms rooms db with
    | (ev₁, Except.error e) => (ev₁, some e, db)
    | (ev₁, Except.ok db₁) =>
      match insert_students students db₁ with
      | (ev₂, Except.error e) => (ev₁ ++ ev₂, some e, db)
      | (ev₂, Except.ok db₂) => (ev₁ ++ ev₂ ++ [Event.commit], none, db₂)

/-! ### The aggregation queries (`src/queries.py`)

Each SQL query is embedded clause by clause as a list computation over the
committed store.  `CURRENT_DATE` is an explicit `today` parameter.  `NUMERIC`
values are modelled by exact rationals; `AVG` of a numeric column followed by
the `::NUMERIC(10,2)` cast is the exact rational mean rounded to two decimal
places half away from zero (PostgreSQL's numeric `AVG` keeps at least 16
significant fractional digits before the cast, so for any store with fewer
than `10^13` rows per group this equals rounding the exact mean). -/

/-- Round a rational to the nearest integer, halves away from zero
(PostgreSQL `numeric` rounding). -/
def roundHalfAwayFromZero (q : ℚ) : ℤ :=
  if 0 ≤ q then ⌊q + 1/2⌋ else -⌊-q + 1/2⌋

/-- The `::NUMERIC(10,2)` cast: round to two decimal places. -/
def round2 (q : ℚ) : ℚ := (roundHalfAwayFromZero (q * 100) : ℚ) / 100

/-- `AVG` of a list of rationals (meaningful on nonempty lists). -/
def listAvg (l : List ℚ) : ℚ := l.sum / (l.length : ℚ)

/-- One result row of the room-student-count query. -/
abbrev CountRow := Int × String × Int

/-- One result row of the lowest-average-age query
(`avg_age` is a `NUMERIC(10,2)`). -/
abbrev AvgRow := Int × String × ℚ

/-- One result row of the highest-age-difference query
(`age_diff` is cast to `INTEGER`). -/
abbrev DiffRow := Int × String × Int

/-- One result row of the mixed-sex-rooms query. -/
abbrev MixedRow := Int × String

/-- `get_room_student_count`'s query:
`SELECT r.id AS room_id, r.name, COUNT(s.id)::INTEGER AS student_count
FROM rooms r LEFT JOIN students s ON r.id = s.room_id GROUP BY r.id, r.name`.
The left join keeps every room as its own group (ids are primary keys);
`COUNT(s.id)` counts the non-`NULL` joined student ids, so an unmatched room
contributes the single all-`NULL` row and counts `0`. -/
def get_room_student_count_rows (db : DB) : List CountRow :=
  db.rooms.map (fun r =>
    (r.id, r.name, ((studentsInRoom db r.id).map Student.id).length))

/-- The lowest-average-age groups before `ORDER BY`/`LIMIT`:
`SELECT r.id AS room_id, r.name,
AVG(EXTRACT(YEAR FROM AGE(CURRENT_DATE, s.birthday)))::NUMERIC(10,2) AS
avg_age FROM rooms r JOIN students s ON r.id = s.room_id GROUP BY r.id,
r.name`.  The inner join drops rooms without students. -/
def lowest_avg_age_groups (today : Date) (db : DB) : List AvgRow :=
  db.rooms.filterMap (fun r =>
    match studentsInRoom db r.id with
    | [] => none
    | ss =>
      some (r.id, r.name,
        round2 (listAvg (ss.map (fun s => (ageYears today s.birthday : ℚ))))))

/-- `get_lowest_avg_age_rooms`'s query: the groups, `ORDER BY avg_age`
ascending (the output column, i.e. the rounded value), `LIMIT 5`. -/
def get_lowest_avg_age_rows (today : Date) (db : DB) : List AvgRow :=
  (List.insertionSort (fun a b : AvgRow => a.2.2 ≤ b.2.2)
    (lowest_avg_age_groups today db)).take 5

/-- The highest-age-difference groups after `HAVING`, before
`ORDER BY`/`LIMIT`: `SELECT r.id AS room_id, r.name,
(EXTRACT(YEAR FROM AGE(MAX(s.birthday), MIN(s.birthday))))::INTEGER AS
age_diff FROM rooms r JOIN students s ON r.id = s.room_id GROUP BY r.id,
r.name HAVING EXTRACT(YEAR FROM AGE(MAX(s.birthday), MIN(s.birthday))) > 0`. -/
def highest_age_diff_groups (db : DB) : List DiffRow :=
  db.rooms.filterMap (fun r =>
    match (studentsInRoom db r.id).map Student.birthday with
    | [] => none
    | b :: bs =>
      let d := ageYears (listMaxDate b bs) (listMinDate b bs)
      if 0 < d then some (r.id, r.name, d) else none)

/-- `get_highest_age_diff_rooms`'s query: the filtered groups,
`ORDER BY age_diff DESC`, `LIMIT 5`. -/
def get_highest_age_diff_rows (db : DB) : List DiffRow :=
  (List.insertionSort (fun a b : DiffRow => b.2.2 ≤ a.2.2)
    (highest_age_diff_groups db)).take 5

/-- `get_mixed_sex_rooms`'s query: `SELECT r.id AS room_id, r.name FROM
rooms r JOIN students s ON r.id = s.room_id GROUP BY r.id, r.name
HAVING COUNT(DISTINCT s.sex) > 1`. -/
def get_mixed_sex_rows (db : DB) : List MixedRow :=
  db.rooms.filterMap (fun r =>
    let ss := studentsInRoom db r.id
    if ss.isEmpty then none
    else if 1 < ((ss.map Student.sex).dedup).length then some (r.id, r.name)
    else none)

/-! ### The result formatter (`_format_output`)

A raw result cell is an `int`, a `str`, or a `Decimal` (the `NUMERIC` column
`avg_age`); `_format_output` builds one insertion-ordered dict per row by
zipping `cursor.description` with the row, converting `Decimal` cells to
`float`, and then encodes via `json.dumps(..., indent=2)` or
`ElementTree`/`minidom.toprettyxml(indent="  ", newl="\n")`.  Python floats
are modelled by their exact rational value; `repr` of the float nearest to a
two-decimal `NUMERIC` value prints that decimal value itself, which is what
the digit rendering below produces.  The strings appearing here (column
labels, room names) need no JSON escaping, so string encoding is quoting. -/

/-- A raw result cell as returned by the cursor. -/
inductive Value where
  | vInt (i : Int) : Value
  | vStr (s : String) : Value
  | vDec (q : ℚ) : Value
deriving DecidableEq, Repr

/-- A cell after `_format_output`'s conversion
(`float(value) if isinstance(value, Decimal) else value`). -/
inductive PyVal where
  | pInt (i : Int) : PyVal
  | pStr (s : String) : PyVal
  | pFloat (q : ℚ) : PyVal
deriving DecidableEq, Repr

/-- The per-cell conversion: `Decimal` becomes `float`, everything else is
kept as is. -/
def pyConvert : Value → PyVal
  | Value.vInt i => PyVal.pInt i
  | Value.vStr s => PyVal.pStr s
  | Value.vDec q => PyVal.pFloat q

/-- A decimal digit character. -/
def decDigit : Nat → Char
  | 0 => '0'
  | 1 => '1'
  | 2 => '2'
  | 3 => '3'
  | 4 => '4'
  | 5 => '5'
  | 6 => '6'
  | 7 => '7'
  | 8 => '8'
  | _ => '9'

/-- Decimal digits of a natural number, most significant first
(fuel-structured so that concrete values reduce definitionally). -/
def natDigitsAux : Nat → Nat → List Char
  | 0, _ => []
  | fuel + 1, n =>
    if n < 10 then [decDigit n]
    else natDigitsAux fuel (n / 10) ++ [decDigit (n % 10)]

/-- Decimal digits of a natural number. -/
def natDigits (n : Nat) : List Char := natDigitsAux (n + 1) n

/-- Python `str`/`repr` of an `int`, as its character list. -/
def intReprChars (i : Int) : List Char :=
  (if i < 0 then ['-'] else []) ++ natDigits i.natAbs

/-- Python `str`/`repr` of an `int`. -/
def intRepr (i : Int) : String := String.mk (intReprChars i)

/-- The fractional digits of the `repr` of a two-decimal value, from its
number of hundredths (`< 100`): trailing zero trimmed, one digit kept. -/
def fracTwoDigits (frac : Nat) : List Char :=
  if frac % 10 == 0 then [decDigit (frac / 10)]
  else [decDigit (frac / 10), decDigit (frac % 10)]

/-- Python `repr` of the float carrying a two-decimal `NUMERIC` value, as a
character list: sign, integer digits, point, fractional digits. -/
def ratFloatReprChars (q : ℚ) : List Char :=
  let n : Nat := (⌊|q| * 100⌋).toNat
  (if q < 0 then ['-'] else []) ++ natDigits (n / 100) ++ '.' :: fracTwoDigits (n % 100)

/-- Python `repr` of the float carrying a two-decimal `NUMERIC` value (the
shortest round-tripping representation of the nearest binary float is the
decimal value itself); values at finer precision never arise here and are
truncated to hundredths. -/
def ratFloatRepr (q : ℚ) : String := String.mk (ratFloatReprChars q)

/-- A scalar as encoded inside `json.dumps`: numbers bare, strings quoted. -/
def encVal : PyVal → String
  | PyVal.pInt i => intRepr i
  | PyVal.pStr s => "\"" ++ s ++ "\""
  | PyVal.pFloat q => ratFloatRepr q

/-- Python `str()` of a converted cell, used for XML text. -/
def pyStrOf : PyVal → String
  | PyVal.pInt i => intRepr i
  | PyVal.pStr s => s
  | PyVal.pFloat q => ratFloatRepr q

/-- The dict comprehension of `_format_output`: one insertion-ordered mapping
per row, `zip(self.db.cursor.description, row)` pairing column names with the
row's cells in order, `Decimal` cells converted to `float`. -/
def formatted_data (desc : List String) (data : List (List Value)) :
    List (List (String × PyVal)) :=
  data.map (fun row => (desc.zip row).map (fun kv => (kv.1, pyConvert kv.2)))

/-- One dict as printed by `json.dumps(..., indent=2)` at depth one. -/
def jsonObj (row : List (String × PyVal)) : String :=
  if row.isEmpty then "\x7b\x7d"
  else
    "\x7b\n" ++
      String.intercalate ",\n"
        (row.map (fun kv => "    \"" ++ kv.1 ++ "\": " ++ encVal kv.2)) ++
      "\n  \x7d"

/-- `json.dumps(formatted_data, indent=2)` for a list of flat dicts; the
empty list prints as `[]`. -/
def json_dumps (rows : List (List (String × PyVal))) : String :=
  if rows.isEmpty then "[]"
  else
    "[\n" ++
      String.intercalate ",\n" (rows.map (fun r => "  " ++ jsonObj r)) ++
      "\n]"

/-- One field element of the XML document: `minidom` prints an element whose
single child is text inline, and a childless element self-closed. -/
def xmlField (kv : String × PyVal) : String :=
  let t := pyStrOf kv.2
  if t.isEmpty then "    <" ++ kv.1 ++ "/>\n"
  else "    <" ++ kv.1 ++ ">" ++ t ++ "</" ++ kv.1 ++ ">\n"

/-- One `record` element of the XML document. -/
def xmlRecord (row : List (String × PyVal)) : String :=
  if row.isEmpty then "  <record/>\n"
  else "  <record>\n" ++ String.join (row.map xmlField) ++ "  </record>\n"

/-- The XML output: `ET` builds `results` with one `record` per row and one
field element per column; `minidom.toprettyxml(indent="  ", newl="\n")`
prints the declaration and the indented tree, self-closing the childless
root when there are no rows. -/
def xml_document (rows : List (List (String × PyVal))) : String :=
  "<?xml version=\"1.0\" ?>\n" ++
    (if rows.isEmpty then "<results/>\n"
     else "<results>\n" ++ String.join (rows.map xmlRecord) ++ "</results>\n")

/-- Python's `str.lower()` (the format selectors in play are ASCII, where
CPython's Unicode lowering is plain ASCII lowering). -/
def lowerStr (s : String) : String := String.mk (s.data.map Char.toLower)

/-- `_format_output(data, output_format)`: build the converted mappings, then
emit JSON when `output_format.lower() == "json"` and XML otherwise. -/
def format_output (desc : List String) (data : List (List Value))
    (output_format : String) : String :=
  let fd := formatted_data desc data
  if lowerStr output_format == "json" then json_dumps fd else xml_document fd

/-- The cells of a room-student-count row, in column order. -/
def countRowValues (r : CountRow) : List Value :=
  [Value.vInt r.1, Value.vStr r.2.1, Value.vInt r.2.2]

/-- The cells of a lowest-average-age row; `avg_age` arrives as a `Decimal`. -/
def avgRowValues (r : AvgRow) : List Value :=
  [Value.vInt r.1, Value.vStr r.2.1, Value.vDec r.2.2]

/-- The cells of a highest-age-difference row; `age_diff` is an `int`. -/
def diffRowValues (r : DiffRow) : List Value :=
  [Value.vInt r.1, Value.vStr r.2.1, Value.vInt r.2.2]

/-- The cells of a mixed-sex-rooms row. -/
def mixedRowValues (r : MixedRow) : List Value :=
  [Value.vInt r.1, Value.vStr r.2]

/-- `get_room_student_count`: run the query, format the rows. -/
def get_room_student_count (db : DB) (output_format : String) : String :=
  format_output ["room_id", "name", "student_count"]
    ((get_room_student_count_rows db).map countRowValues) output_format

/-- `get_lowest_avg_age_rooms`: run the query, format the rows. -/
def get_lowest_avg_age_rooms (today : Date) (db : DB)
    (output_format : String) : String :=
  format_output ["room_id", "name", "avg_age"]
    ((get_lowest_avg_age_rows today db).map avgRowValues) output_format

/-- `get_highest_age_diff_rooms`: run the query, format the rows. -/
def get_highest_age_diff_rooms (db : DB) (output_format : String) : String :=
  format_output ["room_id", "name", "age_diff"]
    ((get_highest_age_diff_rows db).map diffRowValues) output_format

/-- `get_mixed_sex_rooms`: run the query, format the rows. -/
def get_mixed_sex_rooms (db : DB) (output_format : String) : String :=
  format_output ["room_id", "name"]
    ((get_mixed_sex_rows db).map mixedRowValues) output_format

/-! ### The report loop of `main` (`src/main.py`)

Each iteration runs one report function (query plus formatting, which may
raise) and writes its output file (which may raise); both failure modes are
caught by the `try/except` inside the `for` loop, logged together with the
report name, and the loop moves on to the next report.  The loop is embedded
over an arbitrary list of named report outcomes and an arbitrary write
outcome function, returning the files written and the errors logged. -/

/-- The report loop: for each `(name, outcome)` in order, a failed query or
format is logged as `(name, error)`; a successful result is passed to the
write step, whose failure is also logged and whose success records the
written file `(name, contents)`. -/
def report_loop (write : String → String → Except String Unit) :
    List (String × Except String String) →
      List (String × String) × List (String × String)
  | [] => ([], [])
  | (name, act) :: rest =>
    let later := report_loop write rest
    match act with
    | Except.error e => (later.1, (name, e) :: later.2)
    | Except.ok r =>
      match write name r with
      | Except.error e => (later.1, (name, e) :: later.2)
      | Except.ok _ => ((name, r) :: later.1, later.2)

/-! ### Claim theorems -/

/-- **C5.** The room-student-count report returns one row for every room in
the `rooms` table, including rooms with no students (left join); the computed
value for each room is the number of students assigned to that room, and it
is `0` — not `NULL` and not a missing row — for a room with no students. -/
theorem room_student_count_covers_all_rooms (db : DB) :
    (get_room_student_count_rows db).length = db.rooms.length ∧
    (∀ r ∈ db.rooms,
      (r.id, r.name, ((studentsInRoom db r.id).length : Int)) ∈
        get_room_student_count_rows db) ∧
    (∀ row ∈ get_room_student_count_rows db, ∃ r ∈ db.rooms,
      row = (r.id, r.name, ((studentsInRoom db r.id).length : Int))) ∧
    (∀ r ∈ db.rooms, studentsInRoom db r.id = [] →
      (r.id, r.name, (0 : Int)) ∈ get_room_student_count_rows db) := by
  refine ⟨by simp [get_room_student_count_rows], ?_, ?_, ?_⟩
  · intro r hr
    have h := List.mem_map_of_mem
      (fun r : Room =>
        (r.id, r.name, (((studentsInRoom db r.id).map Student.id).length : Int))) hr
    simpa [get_room_student_count_rows] using h
  · intro row hrow
    obtain ⟨r, hr, heq⟩ := List.mem_map.mp hrow
    exact ⟨r, hr, by simp [← heq]⟩
  · intro r hr hempty
    have h := List.mem_map_of_mem
      (fun r : Room =>
        (r.id, r.name, (((studentsInRoom db r.id).map Student.id).length : Int))) hr
    simpa [get_room_student_count_rows, hempty] using h

/-- Witness for C5 at the specification's worked example. -/
theorem room_student_count_covers_all_rooms_witness :
    ((get_room_student_count_rows
        ⟨[⟨1, "Room 1"⟩, ⟨2, "Room 2"⟩],
         [⟨1, "Alice", 1, "F", ⟨2000, 1, 1⟩⟩,
          ⟨2, "Bob", 1, "M", ⟨1998, 1, 1⟩⟩,
          ⟨3, "Charlie", 2, "M", ⟨1999, 1, 1⟩⟩]⟩).length = 2) ∧
    get_room_student_count_rows
        ⟨[⟨1, "Room 1"⟩, ⟨2, "Room 2"⟩],
         [⟨1, "Alice", 1, "F", ⟨2000, 1, 1⟩⟩,
          ⟨2, "Bob", 1, "M", ⟨1998, 1, 1⟩⟩,
          ⟨3, "Charlie", 2, "M", ⟨1999, 1, 1⟩⟩]⟩ =
      [(1, "Room 1", 2), (2, "Room 2", 1)] := by
  have h := room_student_count_covers_all_rooms
    ⟨[⟨1, "Room 1"⟩, ⟨2, "Room 2"⟩],
     [⟨1, "Alice", 1, "F", ⟨2000, 1, 1⟩⟩,
      ⟨2, "Bob", 1, "M", ⟨1998, 1, 1⟩⟩,
      ⟨3, "Charlie", 2, "M", ⟨1999, 1, 1⟩⟩]⟩
  exact ⟨h.1, by decide⟩

/-- **C10.** For every `output_format` whose lower-casing is not `"json"`
(such as `"XML"`, `"yaml"`, or `""`), `_format_output` returns the XML
encoding of the rows; being a total function, it rejects no selector. -/
theorem format_output_non_json_is_xml (desc : List String)
    (data : List (List Value)) (output_format : String)
    (h : lowerStr output_format ≠ "json") :
    format_output desc data output_format =
      xml_document (formatted_data desc data) := by
  have hc : ¬((lowerStr output_format == "json") = true) := by
    simpa using h
  simp only [format_output, if_neg hc]

/-- Witness for C10 at the selectors `"XML"`, `"yaml"` and `""`. -/
theorem format_output_non_json_is_xml_witness :
    lowerStr "XML" ≠ "json" ∧ lowerStr "yaml" ≠ "json" ∧ lowerStr "" ≠ "json" ∧
    format_output ["room_id", "name"] [] "XML" =
      "<?xml version=\"1.0\" ?>\n<results/>\n" ∧
    format_output ["room_id", "name"] [] "yaml" =
      "<?xml version=\"1.0\" ?>\n<results/>\n" ∧
    format_output ["room_id", "name"] [] "" =
      "<?xml version=\"1.0\" ?>\n<results/>\n" := by
  refine ⟨by decide, by decide, by decide, ?_, ?_, ?_⟩
  · rw [format_output_non_json_is_xml _ _ _ (by decide)]; rfl
  · rw [format_output_non_json_is_xml _ _ _ (by decide)]; rfl
  · rw [format_output_non_json_is_xml _ _ _ (by decide)]; rfl

/-- **C9.** Loading two empty arrays commits and leaves both tables empty,
each of the four reports on the empty store returns an empty collection
rather than an error, and the formatted output is exactly `[]` in JSON mode
and the empty `results` document in XML mode. -/
theorem empty_input_gives_empty_reports :
    load_data (some []) (some []) emptyDB = ([Event.commit], none, emptyDB) ∧
    (∀ today : Date,
      get_room_student_count_rows emptyDB = [] ∧
      get_lowest_avg_age_rows today emptyDB = [] ∧
      get_highest_age_diff_rows emptyDB = [] ∧
      get_mixed_sex_rows emptyDB = [] ∧
      get_room_student_count emptyDB "json" = "[]" ∧
      get_lowest_avg_age_rooms today emptyDB "json" = "[]" ∧
      get_highest_age_diff_rooms emptyDB "json" = "[]" ∧
      get_mixed_sex_rooms emptyDB "json" = "[]" ∧
      get_room_student_count emptyDB "xml" =
        "<?xml version=\"1.0\" ?>\n<results/>\n" ∧
      get_lowest_avg_age_rooms today emptyDB "xml" =
        "<?xml version=\"1.0\" ?>\n<results/>\n" ∧
      get_highest_age_diff_rooms emptyDB "xml" =
        "<?xml version=\"1.0\" ?>\n<results/>\n" ∧
      get_mixed_sex_rooms emptyDB "xml" =
        "<?xml version=\"1.0\" ?>\n<results/>\n") :=
  ⟨rfl, fun _ => ⟨rfl, rfl, rfl, rfl, rfl, rfl, rfl, rfl, rfl, rfl, rfl, rfl⟩⟩

/-- **C7.** In the report loop, a failure of any report — in its query and
formatting step or in its write step — is logged under that report's name,
while every other report in the list is still attempted: each remaining
successful report has its output recorded, independently of the failures. -/
theorem report_loop_isolates_failures
    (write : String → String → Except String Unit)
    (items : List (String × Except String String)) :
    (∀ name e, (name, Except.error e) ∈ items →
      (name, e) ∈ (report_loop write items).2) ∧
    (∀ name r, (name, Except.ok r) ∈ items → write name r = Except.ok () →
      (name, r) ∈ (report_loop write items).1) ∧
    (∀ name r e, (name, Except.ok r) ∈ items → write name r = Except.error e →
      (name, e) ∈ (report_loop write items).2) := by
  induction items with
  | nil => exact ⟨by simp, by simp, by simp⟩
  | cons item rest ih =>
    obtain ⟨hE, hOk, hW⟩ := ih
    obtain ⟨name₀, act₀⟩ := item
    have split₁ : ∀ p, p ∈ (report_loop write rest).1 →
        p ∈ (report_loop write ((name₀, act₀) :: rest)).1 := by
      intro p hp
      cases act₀ with
      | error e₀ => simpa [report_loop] using hp
      | ok r₀ =>
        rcases hw : write name₀ r₀ with _ | u
        · simpa [report_loop, hw] using hp
        · simp only [report_loop, hw]
          exact List.mem_cons_of_mem _ hp
    have split₂ : ∀ p, p ∈ (report_loop write rest).2 →
        p ∈ (report_loop write ((name₀, act₀) :: rest)).2 := by
      intro p hp
      cases act₀ with
      | error e₀ =>
        simp only [report_loop]
        exact List.mem_cons_of_mem _ hp
      | ok r₀ =>
        rcases hw : write name₀ r₀ with _ | u
        · simp only [report_loop, hw]
          exact List.mem_cons_of_mem _ hp
        · simpa [report_loop, hw] using hp
    refine ⟨?_, ?_, ?_⟩
    · intro name e hmem
      rcases List.mem_cons.mp hmem with heq | hmem'
      · obtain ⟨h1, h2⟩ := Prod.mk.injEq .. ▸ heq
        subst h1
        subst h2
        simp [report_loop]
      · exact split₂ _ (hE name e hmem')
    · intro name r hmem hw
      rcases List.mem_cons.mp hmem with heq | hmem'
      · obtain ⟨h1, h2⟩ := Prod.mk.injEq .. ▸ heq
        subst h1
        subst h2
        simp [report_loop, hw]
      · exact split₁ _ (hOk name r hmem' hw)
    · intro name r e hmem hw
      rcases List.mem_cons.mp hmem with heq | hmem'
      · obtain ⟨h1, h2⟩ := Prod.mk.injEq .. ▸ heq
        subst h1
        subst h2
        simp [report_loop, hw]
      · exact split₂ _ (hW name r e hmem' hw)

/-- Witness for C7: with the second of three reports failing, the loop still
writes the first and third and logs the failure under the report's name. -/
theorem report_loop_isolates_failures_witness :
    report_loop (fun _ _ => Except.ok ())
        [("Room student count", Except.ok "[]"),
         ("Lowest age room", Except.error "QueryError"),
         ("Highest age diff rooms", Except.ok "[]")] =
      ([("Room student count", "[]"), ("Highest age diff rooms", "[]")],
       [("Lowest age room", "QueryError")]) ∧
    ("Highest age diff rooms", "[]") ∈
      (report_loop (fun _ _ => Except.ok ())
        [("Room student count", Except.ok "[]"),
         ("Lowest age room", Except.error "QueryError"),
         ("Highest age diff rooms", Except.ok "[]")]).1 := by
  refine ⟨rfl, ?_⟩
  refine (report_loop_isolates_failures (fun _ _ => Except.ok ()) _).2.1
    "Highest age diff rooms" "[]" ?_ rfl
  exact List.mem_cons_of_mem _ (List.mem_cons_of_mem _ (List.mem_cons_self _ _))

/-- Every character produced by `decDigit` is a decimal digit. -/
theorem decDigit_isDigit (n : Nat) : (decDigit n).isDigit = true := by
  rcases n with _|_|_|_|_|_|_|_|_|n <;> rfl

/-- Every character of a rendered natural number is a decimal digit. -/
theorem natDigitsAux_all_digits (fuel : Nat) :
    ∀ n, ∀ c ∈ natDigitsAux fuel n, c.isDigit = true := by
  induction fuel with
  | zero => intro n c hc; simp [natDigitsAux] at hc
  | succ fuel ih =>
    intro n c hc
    unfold natDigitsAux at hc
    by_cases h : n < 10
    · rw [if_pos h] at hc
      simp only [List.mem_singleton] at hc
      subst hc
      exact decDigit_isDigit n
    · rw [if_neg h] at hc
      rcases List.mem_append.mp hc with h1 | h2
      · exact ih _ c h1
      · simp only [List.mem_singleton] at h2
        subst h2
        exact decDigit_isDigit _

/-- The JSON rendering of a converted `Decimal` consists of digits, a sign
and a decimal point only: a numeric literal, never a quoted string. -/
theorem encVal_pFloat_numeric (q : ℚ) :
    (encVal (PyVal.pFloat q)).data.all
      (fun c => c.isDigit || c == '-' || c == '.') = true := by
  show (ratFloatReprChars q).all _ = true
  rw [List.all_eq_true]
  intro c hc
  unfold ratFloatReprChars at hc
  simp only [List.mem_append, List.mem_cons] at hc
  rcases hc with (hsgn | hdig) | (hdot | hfrac)
  · by_cases hq : q < 0
    · rw [if_pos hq] at hsgn
      simp only [List.mem_singleton] at hsgn
      subst hsgn; rfl
    · rw [if_neg hq] at hsgn
      simp at hsgn
  · have := natDigitsAux_all_digits _ _ c hdig
    simp [this]
  · subst hdot; rfl
  · unfold fracTwoDigits at hfrac
    by_cases h10 : (⌊|q| * 100⌋.toNat % 100) % 10 == 0
    · rw [if_pos h10] at hfrac
      simp only [List.mem_singleton] at hfrac
      subst hfrac
      simp [decDigit_isDigit]
    · rw [if_neg h10] at hfrac
      simp only [List.mem_cons, List.mem_singleton, List.not_mem_nil,
        or_false] at hfrac
      rcases hfrac with h | h <;> (subst h; simp [decDigit_isDigit])

/-- **C8.** For matching-length column lists and rows, `_format_output`
builds one insertion-ordered mapping per row whose keys are the column names
in column order and whose values are that row's cells in order, converting
every `Decimal` cell to a plain float before encoding, so that JSON mode
emits a numeric literal — never a quoted string — for such values. -/
theorem format_output_builds_ordered_mappings (desc : List String)
    (data : List (List Value))
    (hlen : ∀ row ∈ data, row.length = desc.length) :
    formatted_data desc data =
      data.map (fun row => (desc.zip row).map (fun kv => (kv.1, pyConvert kv.2))) ∧
    (∀ row ∈ data,
      ((desc.zip row).map (fun kv => (kv.1, pyConvert kv.2))).map Prod.fst = desc ∧
      ((desc.zip row).map (fun kv => (kv.1, pyConvert kv.2))).map Prod.snd =
        row.map pyConvert) ∧
    (∀ q, pyConvert (Value.vDec q) = PyVal.pFloat q) ∧
    (∀ q, (encVal (PyVal.pFloat q)).data.all
      (fun c => c.isDigit || c == '-' || c == '.') = true) ∧
    format_output desc data "json" = json_dumps (formatted_data desc data) := by
  refine ⟨rfl, ?_, fun _ => rfl, encVal_pFloat_numeric, rfl⟩
  intro row hrow
  have hle₁ : desc.length ≤ row.length := (hlen row hrow).ge
  have hle₂ : row.length ≤ desc.length := (hlen row hrow).le
  constructor
  · have : ((desc.zip row).map (fun kv => (kv.1, pyConvert kv.2))).map Prod.fst =
        (desc.zip row).map Prod.fst := by
      simp [List.map_map, Function.comp_def]
    rw [this, List.map_fst_zip _ _ hle₁]
  · have : ((desc.zip row).map (fun kv => (kv.1, pyConvert kv.2))).map Prod.snd =
        ((desc.zip row).map Prod.snd).map pyConvert := by
      simp [List.map_map, Function.comp_def]
    rw [this, List.map_snd_zip _ _ hle₂]

/-- Witness for C8 on one row with an integer, a string and a `Decimal`. -/
theorem format_output_builds_ordered_mappings_witness :
    (∀ row ∈ [[Value.vInt 1, Value.vStr "Room 1", Value.vDec (53/2)]],
      row.length = (["room_id", "name", "avg_age"] : List String).length) ∧
    formatted_data ["room_id", "name", "avg_age"]
        [[Value.vInt 1, Value.vStr "Room 1", Value.vDec (53/2)]] =
      [[("room_id", PyVal.pInt 1), ("name", PyVal.pStr "Room 1"),
        ("avg_age", PyVal.pFloat (53/2))]] ∧
    (encVal (PyVal.pFloat (53/2))).data.all
      (fun c => c.isDigit || c == '-' || c == '.') = true := by
  have h := format_output_builds_ordered_mappings ["room_id", "name", "avg_age"]
    [[Value.vInt 1, Value.vStr "Room 1", Value.vDec (53/2)]]
    (by intro row hrow; simp only [List.mem_singleton] at hrow; subst hrow; rfl)
  exact ⟨fun row hrow => by
      simp only [List.mem_singleton] at hrow; subst hrow; rfl,
    rfl, h.2.2.2.1 (53/2)⟩

/-- Every event emitted by `_insert_rooms` is a room insertion. -/
theorem insert_rooms_events (recs : List RoomRec) :
    ∀ db : DB, ∀ e ∈ (insert_rooms recs db).1, ∃ x, e = Event.insRoom x := by
  induction recs with
  | nil => intro db e he; simp [insert_rooms] at he
  | cons r rs ih =>
    intro db e he
    obtain ⟨oid, onm⟩ := r
    rcases oid with _ | i
    · simp [insert_rooms] at he
    rcases onm with _ | n
    · simp [insert_rooms] at he
    simp only [insert_rooms] at he
    by_cases hc : ((roomIds db).contains i) = true
    · rw [if_pos hc] at he
      exact ih db e he
    · rw [if_neg hc] at he
      rcases List.mem_cons.mp he with rfl | he'
      · exact ⟨_, rfl⟩
      · exact ih _ e he'

/-- Every event emitted by `_insert_students` is a student insertion. -/
theorem insert_students_events (recs : List StudentRec) :
    ∀ db : DB, ∀ e ∈ (insert_students recs db).1, ∃ x, e = Event.insStudent x := by
  induction recs with
  | nil => intro db e he; simp [insert_students] at he
  | cons s ss ih =>
    intro db e he
    obtain ⟨f1, f2, f3, f4, f5⟩ := s
    rcases f1 with _ | i
    · simp [insert_students] at he
    rcases f2 with _ | n
    · simp [insert_students] at he
    rcases f3 with _ | rm
    · simp [insert_students] at he
    rcases f4 with _ | sx
    · simp [insert_students] at he
    rcases f5 with _ | b
    · simp [insert_students] at he
    simp only [insert_students] at he
    by_cases hc : ((studentIds db).contains i) = true
    · rw [if_pos hc] at he
      exact ih db e he
    · rw [if_neg hc] at he
      by_cases hr : ((roomIds db).contains rm) = true
      · rw [if_pos hr] at he
        rcases List.mem_cons.mp he with rfl | he'
        · exact ⟨_, rfl⟩
        · exact ih _ e he'
      · rw [if_neg hr] at he
        simp at he

/-- **C2.** `load_data` performs every room insertion before any student
insertion, and commits exactly once, as the final action, only when both
source reads and both insert batches succeeded; on any failure it raises
with no commit, leaving the committed store exactly as it was. -/
theorem load_data_orders_and_commits_atomically
    (roomsSrc : Option (List RoomRec)) (studentsSrc : Option (List StudentRec))
    (db : DB) :
    (∃ evR evS,
      (∀ e ∈ evR, ∃ x, e = Event.insRoom x) ∧
      (∀ e ∈ evS, ∃ y, e = Event.insStudent y) ∧
      (((load_data roomsSrc studentsSrc db).2.1 = none ∧
          (load_data roomsSrc studentsSrc db).1 = evR ++ evS ++ [Event.commit]) ∨
        ((load_data roomsSrc studentsSrc db).2.1 ≠ none ∧
          (load_data roomsSrc studentsSrc db).1 = evR ++ evS))) ∧
    ((load_data roomsSrc studentsSrc db).2.1 ≠ none →
      (load_data roomsSrc studentsSrc db).2.2 = db) := by
  rcases roomsSrc with _ | rooms
  · exact ⟨⟨[], [], by simp, by simp,
      Or.inr ⟨by simp [load_data], by simp [load_data]⟩⟩, fun _ => rfl⟩
  rcases studentsSrc with _ | students
  · exact ⟨⟨[], [], by simp, by simp,
      Or.inr ⟨by simp [load_data], by simp [load_data]⟩⟩, fun _ => rfl⟩
  rcases h1 : insert_rooms rooms db with ⟨ev₁, res₁⟩
  have hev₁ : ∀ e ∈ ev₁, ∃ x, e = Event.insRoom x := by
    have h := insert_rooms_events rooms db
    rw [h1] at h
    exact h
  cases res₁ with
  | error e =>
    exact ⟨⟨ev₁, [], hev₁, by simp,
      Or.inr ⟨by simp [load_data, h1], by simp [load_data, h1]⟩⟩,
      fun _ => by simp [load_data, h1]⟩
  | ok db₁ =>
    rcases h2 : insert_students students db₁ with ⟨ev₂, res₂⟩
    have hev₂ : ∀ e ∈ ev₂, ∃ y, e = Event.insStudent y := by
      have h := insert_students_events students db₁
      rw [h2] at h
      exact h
    cases res₂ with
    | error e =>
      exact ⟨⟨ev₁, ev₂, hev₁, hev₂,
        Or.inr ⟨by simp [load_data, h1, h2], by simp [load_data, h1, h2]⟩⟩,
        fun _ => by simp [load_data, h1, h2]⟩
    | ok db₂ =>
      refine ⟨⟨ev₁, ev₂, hev₁, hev₂,
        Or.inl ⟨by simp [load_data, h1, h2], by simp [load_data, h1, h2]⟩⟩,
        fun hne => absurd ?_ hne⟩
      simp [load_data, h1, h2]

/-- Witness for C2: a student referencing a missing room fails the load and
the committed store is unchanged. -/
theorem load_data_orders_and_commits_atomically_witness :
    (load_data (some [⟨some 1, some "Room 1"⟩])
        (some [⟨some 1, some "Grace", some 2, some "F", some ⟨2000, 1, 1⟩⟩])
        emptyDB).2.1 ≠ none ∧
    (load_data (some [⟨some 1, some "Room 1"⟩])
        (some [⟨some 1, some "Grace", some 2, some "F", some ⟨2000, 1, 1⟩⟩])
        emptyDB).2.2 = emptyDB := by
  have hne : (load_data (some [⟨some 1, some "Room 1"⟩])
      (some [⟨some 1, some "Grace", some 2, some "F", some ⟨2000, 1, 1⟩⟩])
      emptyDB).2.1 =
      some (LoadError.foreignKeyViolation
        ⟨some 1, some "Grace", some 2, some "F", some ⟨2000, 1, 1⟩⟩) := rfl
  have h := load_data_orders_and_commits_atomically
    (some [⟨some 1, some "Room 1"⟩])
    (some [⟨some 1, some "Grace", some 2, some "F", some ⟨2000, 1, 1⟩⟩]) emptyDB
  refine ⟨by rw [hne]; simp, h.2 (by rw [hne]; simp)⟩

/-- A room record with a missing key makes `_insert_rooms` raise at once,
inserting nothing further. -/
theorem insert_rooms_cons_bad (r : RoomRec) (rs : List RoomRec) (db : DB)
    (h : r.id = none ∨ r.name = none) :
    insert_rooms (r :: rs) db =
      ([], Except.error (LoadError.roomRecordError r)) := by
  obtain ⟨oid, onm⟩ := r
  rcases oid with _ | i <;> rcases onm with _ | n <;> simp_all [insert_rooms]

/-- A student record with a missing key makes `_insert_students` raise at
once, inserting nothing further. -/
theorem insert_students_cons_bad (s : StudentRec) (ss : List StudentRec)
    (db : DB)
    (h : s.id = none ∨ s.name = none ∨ s.room = none ∨ s.sex = none ∨
      s.birthday = none) :
    insert_students (s :: ss) db =
      ([], Except.error (LoadError.studentRecordError s)) := by
  obtain ⟨f1, f2, f3, f4, f5⟩ := s
  rcases f1 with _ | i <;> rcases f2 with _ | n <;> rcases f3 with _ | rm <;>
    rcases f4 with _ | sx <;> rcases f5 with _ | b <;>
      simp_all [insert_students]

/-- `_insert_rooms` processes its batch left to right: after a successfully
processed prefix, the remaining records run on the extended pending state. -/
theorem insert_rooms_append_ok (pre : List RoomRec) :
    ∀ (rest : List RoomRec) (db db' : DB) (ev : List Event),
      insert_rooms pre db = (ev, Except.ok db') →
      insert_rooms (pre ++ rest) db =
        (ev ++ (insert_rooms rest db').1, (insert_rooms rest db').2) := by
  induction pre with
  | nil =>
    intro rest db db' ev h
    simp only [insert_rooms] at h
    obtain ⟨h1, h2⟩ := Prod.mk.injEq .. ▸ h
    subst h1
    obtain rfl : db = db' := by injection h2
    simp
  | cons r rs ih =>
    intro rest db db' ev h
    obtain ⟨oid, onm⟩ := r
    rcases oid with _ | i
    · simp [insert_rooms] at h
    rcases onm with _ | n
    · simp [insert_rooms] at h
    simp only [insert_rooms, List.cons_append] at h ⊢
    by_cases hc : ((roomIds db).contains i) = true
    · rw [if_pos hc] at h ⊢
      exact ih rest db db' ev h
    · rw [if_neg hc] at h ⊢
      rcases h' : insert_rooms rs { db with rooms := db.rooms ++ [⟨i, n⟩] }
        with ⟨ev₀, res₀⟩
      rw [h'] at h
      cases res₀ with
      | error e => simp at h
      | ok dbx =>
        have h1 : Event.insRoom ⟨i, n⟩ :: ev₀ = ev := congrArg Prod.fst h
        have h2 : Except.ok (ε := LoadError) dbx = Except.ok db' :=
          congrArg Prod.snd h
        obtain rfl : dbx = db' := by injection h2
        subst h1
        have hi := ih rest _ dbx ev₀ h'
        simp [hi]

/-- `_insert_students` processes its batch left to right likewise. -/
theorem insert_students_append_ok (pre : List StudentRec) :
    ∀ (rest : List StudentRec) (db db' : DB) (ev : List Event),
      insert_students pre db = (ev, Except.ok db') →
      insert_students (pre ++ rest) db =
        (ev ++ (insert_students rest db').1, (insert_students rest db').2) := by
  induction pre with
  | nil =>
    intro rest db db' ev h
    simp only [insert_students] at h
    obtain ⟨h1, h2⟩ := Prod.mk.injEq .. ▸ h
    subst h1
    obtain rfl : db = db' := by injection h2
    simp
  | cons s ss ih =>
    intro rest db db' ev h
    obtain ⟨f1, f2, f3, f4, f5⟩ := s
    rcases f1 with _ | i
    · simp [insert_students] at h
    rcases f2 with _ | n
    · simp [insert_students] at h
    rcases f3 with _ | rm
    · simp [insert_students] at h
    rcases f4 with _ | sx
    · simp [insert_students] at h
    rcases f5 with _ | b
    · simp [insert_students] at h
    simp only [insert_students, List.cons_append] at h ⊢
    by_cases hc : ((studentIds db).contains i) = true
    · rw [if_pos hc] at h ⊢
      exact ih rest db db' ev h
    · rw [if_neg hc] at h ⊢
      by_cases hr : ((roomIds db).contains rm) = true
      · rw [if_pos hr] at h ⊢
        rcases h' : insert_students ss
            { db with students := db.students ++ [⟨i, n, rm, sx, b⟩] }
          with ⟨ev₀, res₀⟩
        rw [h'] at h
        cases res₀ with
        | error e => simp at h
        | ok dbx =>
          have h1 : Event.insStudent ⟨i, n, rm, sx, b⟩ :: ev₀ = ev :=
            congrArg Prod.fst h
          have h2 : Except.ok (ε := LoadError) dbx = Except.ok db' :=
            congrArg Prod.snd h
          obtain rfl : dbx = db' := by injection h2
          subst h1
          have hi := ih rest _ dbx ev₀ h'
          simp [hi]
      · rw [if_neg hr] at h
        simp at h

/-- **C6.** A rooms batch containing a record that lacks `id` or `name`
(and a students batch containing a record that lacks one of `id`, `name`,
`room`, `sex`, `birthday`) makes the load fail with the record-level error
naming the offending record; the trace holds exactly the successful prefix's
insertions — no record after the offending one is inserted, the loader does
not skip-and-continue — and the committed store is unchanged. -/
theorem load_data_missing_key_aborts_batch
    (pre post : List RoomRec) (bad : RoomRec)
    (hbad : bad.id = none ∨ bad.name = none)
    (studs : List StudentRec) (db db' : DB) (ev : List Event)
    (hpre : insert_rooms pre db = (ev, Except.ok db'))
    (rooms : List RoomRec) (preS postS : List StudentRec) (badS : StudentRec)
    (hbadS : badS.id = none ∨ badS.name = none ∨ badS.room = none ∨
      badS.sex = none ∨ badS.birthday = none)
    (evR evS : List Event) (db₁ db₂ : DB)
    (hrooms : insert_rooms rooms db = (evR, Except.ok db₁))
    (hpreS : insert_students preS db₁ = (evS, Except.ok db₂)) :
    load_data (some (pre ++ bad :: post)) (some studs) db =
      (ev, some (LoadError.roomRecordError bad), db) ∧
    load_data (some rooms) (some (preS ++ badS :: postS)) db =
      (evR ++ evS, some (LoadError.studentRecordError badS), db) := by
  constructor
  · have h := insert_rooms_append_ok pre (bad :: post) db db' ev hpre
    rw [insert_rooms_cons_bad bad post db' hbad] at h
    simp only [load_data, h]
    simp
  · have h := insert_students_append_ok preS (badS :: postS) db₁ db₂ evS hpreS
    rw [insert_students_cons_bad badS postS db₂ hbadS] at h
    simp only [load_data, hrooms, h]
    simp

/-- Witness for C6: a nameless second room aborts the batch after the first
insert; an id-less student aborts the students batch before any insert. -/
theorem load_data_missing_key_aborts_batch_witness :
    load_data (some [⟨some 1, some "Room 1"⟩, ⟨some 2, none⟩,
        ⟨some 3, some "Room 3"⟩]) (some []) emptyDB =
      ([Event.insRoom ⟨1, "Room 1"⟩],
       some (LoadError.roomRecordError ⟨some 2, none⟩), emptyDB) ∧
    load_data (some [])
        (some [⟨none, some "Eve", some 1, some "F", some ⟨2000, 1, 1⟩⟩])
        emptyDB =
      ([], some (LoadError.studentRecordError
        ⟨none, some "Eve", some 1, some "F", some ⟨2000, 1, 1⟩⟩), emptyDB) := by
  have h := load_data_missing_key_aborts_batch
    [⟨some 1, some "Room 1"⟩] [⟨some 3, some "Room 3"⟩] ⟨some 2, none⟩
    (Or.inr rfl) [] emptyDB ⟨[⟨1, "Room 1"⟩], []⟩ [Event.insRoom ⟨1, "Room 1"⟩]
    rfl [] [] []
    ⟨none, some "Eve", some 1, some "F", some ⟨2000, 1, 1⟩⟩
    (Or.inl rfl) [] [] emptyDB emptyDB rfl rfl
  exact ⟨h.1, h.2⟩

/-- When every room record has its keys and an already-stored id,
`ON CONFLICT (id) DO NOTHING` skips every record: no event, no change. -/
theorem insert_rooms_skip (recs : List RoomRec) :
    ∀ db : DB,
      (∀ r ∈ recs, ∃ i, r.id = some i ∧ r.name.isSome ∧ i ∈ roomIds db) →
      insert_rooms recs db = ([], Except.ok db) := by
  induction recs with
  | nil => intro db _; rfl
  | cons r rs ih =>
    intro db h
    obtain ⟨i, hid, hnm, hmem⟩ := h r (List.mem_cons_self _ _)
    obtain ⟨oid, onm⟩ := r
    obtain rfl : oid = some i := hid
    rcases onm with _ | n
    · simp at hnm
    simp only [insert_rooms]
    rw [if_pos (List.elem_iff.mpr hmem)]
    exact ih db (fun r hr => h r (List.mem_cons_of_mem _ hr))

/-- When every student record has its keys and an already-stored id, the
students batch is likewise skipped entirely (no foreign-key check occurs on
a conflicting insert). -/
theorem insert_students_skip (recs : List StudentRec) :
    ∀ db : DB,
      (∀ s ∈ recs, ∃ i, s.id = some i ∧ s.name.isSome ∧ s.room.isSome ∧
        s.sex.isSome ∧ s.birthday.isSome ∧ i ∈ studentIds db) →
      insert_students recs db = ([], Except.ok db) := by
  induction recs with
  | nil => intro db _; rfl
  | cons s ss ih =>
    intro db h
    obtain ⟨i, hid, hnm, hrm, hsx, hbd, hmem⟩ := h s (List.mem_cons_self _ _)
    obtain ⟨f1, f2, f3, f4, f5⟩ := s
    obtain rfl : f1 = some i := hid
    rcases f2 with _ | n
    · simp at hnm
    rcases f3 with _ | rm
    · simp at hrm
    rcases f4 with _ | sx
    · simp at hsx
    rcases f5 with _ | b
    · simp at hbd
    simp only [insert_students]
    rw [if_pos (List.elem_iff.mpr hmem)]
    exact ih db (fun s hs => h s (List.mem_cons_of_mem _ hs))

/-- A rooms batch whose records all carry `id` and `name` succeeds, touches
only the `rooms` table, and ends with every old and every batch id stored. -/
theorem insert_rooms_ok (recs : List RoomRec) :
    ∀ db : DB,
      (∀ r ∈ recs, r.id.isSome ∧ r.name.isSome) →
      ∃ ev db', insert_rooms recs db = (ev, Except.ok db') ∧
        db'.students = db.students ∧
        (∀ i, i ∈ roomIds db → i ∈ roomIds db') ∧
        (∀ r ∈ recs, ∀ i, r.id = some i → i ∈ roomIds db') := by
  induction recs with
  | nil => intro db _; exact ⟨[], db, rfl, rfl, fun _ h => h, by simp⟩
  | cons r rs ih =>
    intro db h
    obtain ⟨hid, hnm⟩ := h r (List.mem_cons_self _ _)
    obtain ⟨oid, onm⟩ := r
    rcases oid with _ | i
    · simp at hid
    rcases onm with _ | n
    · simp at hnm
    by_cases hc : ((roomIds db).contains i) = true
    · obtain ⟨ev, db', heq, hst, hmono, hsrc⟩ :=
        ih db (fun r hr => h r (List.mem_cons_of_mem _ hr))
      refine ⟨ev, db', ?_, hst, hmono, ?_⟩
      · simp only [insert_rooms]
        rw [if_pos hc]
        exact heq
      · intro r hr j hj
        rcases List.mem_cons.mp hr with rfl | hr'
        · obtain rfl : j = i := by
            injection hj with hj'
            exact hj'.symm
          exact hmono j (List.elem_iff.mp hc)
        · exact hsrc r hr' j hj
    · obtain ⟨ev, db', heq, hst, hmono, hsrc⟩ :=
        ih { db with rooms := db.rooms ++ [⟨i, n⟩] }
          (fun r hr => h r (List.mem_cons_of_mem _ hr))
      have hids : roomIds { db with rooms := db.rooms ++ [⟨i, n⟩] } =
          roomIds db ++ [i] := by simp [roomIds]
      refine ⟨Event.insRoom ⟨i, n⟩ :: ev, db', ?_, hst, ?_, ?_⟩
      · simp only [insert_rooms]
        rw [if_neg hc]
        simp [heq]
      · intro j hj
        apply hmono
        rw [hids]
        exact List.mem_append_left _ hj
      · intro r hr j hj
        rcases List.mem_cons.mp hr with rfl | hr'
        · obtain rfl : j = i := by
            injection hj with hj'
            exact hj'.symm
          apply hmono
          rw [hids]
          exact List.mem_append_right _ (List.mem_singleton.mpr rfl)
        · exact hsrc r hr' j hj

/-- A students batch whose records all carry their five keys and reference
stored rooms succeeds, touches only the `students` table, and ends with
every old and every batch id stored. -/
theorem insert_students_ok (recs : List StudentRec) :
    ∀ db : DB,
      (∀ s ∈ recs, s.id.isSome ∧ s.name.isSome ∧ s.room.isSome ∧
        s.sex.isSome ∧ s.birthday.isSome ∧
        (∀ j, s.room = some j → j ∈ roomIds db)) →
      ∃ ev db', insert_students recs db = (ev, Except.ok db') ∧
        db'.rooms = db.rooms ∧
        (∀ i, i ∈ studentIds db → i ∈ studentIds db') ∧
        (∀ s ∈ recs, ∀ i, s.id = some i → i ∈ studentIds db') := by
  induction recs with
  | nil => intro db _; exact ⟨[], db, rfl, rfl, fun _ h => h, by simp⟩
  | cons s ss ih =>
    intro db h
    obtain ⟨hid, hnm, hrm, hsx, hbd, hroom⟩ := h s (List.mem_cons_self _ _)
    obtain ⟨f1, f2, f3, f4, f5⟩ := s
    rcases f1 with _ | i
    · simp at hid
    rcases f2 with _ | n
    · simp at hnm
    rcases f3 with _ | rm
    · simp at hrm
    rcases f4 with _ | sx
    · simp at hsx
    rcases f5 with _ | b
    · simp at hbd
    by_cases hc : ((studentIds db).contains i) = true
    · obtain ⟨ev, db', heq, hro, hmono, hsrc⟩ :=
        ih db (fun s hs => h s (List.mem_cons_of_mem _ hs))
      refine ⟨ev, db', ?_, hro, hmono, ?_⟩
      · simp only [insert_students]
        rw [if_pos hc]
        exact heq
      · intro s hs j hj
        rcases List.mem_cons.mp hs with rfl | hs'
        · obtain rfl : j = i := by
            injection hj with hj'
            exact hj'.symm
          exact hmono j (List.elem_iff.mp hc)
        · exact hsrc s hs' j hj
    · have hrmem : rm ∈ roomIds db := hroom rm rfl
      have hr : ((roomIds db).contains rm) = true := List.elem_iff.mpr hrmem
      obtain ⟨ev, db', heq, hro, hmono, hsrc⟩ :=
        ih { db with students := db.students ++ [⟨i, n, rm, sx, b⟩] }
          (fun s hs => h s (List.mem_cons_of_mem _ hs))
      have hids : studentIds
          { db with students := db.students ++ [⟨i, n, rm, sx, b⟩] } =
          studentIds db ++ [i] := by simp [studentIds]
      refine ⟨Event.insStudent ⟨i, n, rm, sx, b⟩ :: ev, db', ?_, hro, ?_, ?_⟩
      · simp only [insert_students]
        rw [if_neg hc, if_pos hr]
        simp [heq]
      · intro j hj
        apply hmono
        rw [hids]
        exact List.mem_append_left _ hj
      · intro s hs j hj
        rcases List.mem_cons.mp hs with rfl | hs'
        · obtain rfl : j = i := by
            injection hj with hj'
            exact hj'.symm
          apply hmono
          rw [hids]
          exact List.mem_append_right _ (List.mem_singleton.mpr rfl)
        · exact hsrc s hs' j hj

/-- **C1.** For valid rooms and students sources — every record carries its
required keys, ids are distinct, every student's room id is among the rooms
source's ids — loading succeeds, and calling `load_data` a second time with
the same sources succeeds, skips every re-loaded record silently (the second
trace holds no insertion, only the commit), and leaves the tables exactly as
after the first call: nothing overwritten, no error raised. -/
theorem load_data_idempotent (rooms : List RoomRec)
    (students : List StudentRec) (db : DB)
    (hrk : ∀ r ∈ rooms, r.id.isSome ∧ r.name.isSome)
    (hsk : ∀ s ∈ students, s.id.isSome ∧ s.name.isSome ∧ s.room.isSome ∧
      s.sex.isSome ∧ s.birthday.isSome)
    (hrdist : (rooms.filterMap RoomRec.id).Nodup)
    (hsdist : (students.filterMap StudentRec.id).Nodup)
    (hfk : ∀ s ∈ students, ∀ j, s.room = some j →
      j ∈ rooms.filterMap RoomRec.id) :
    ∃ db₁ : DB,
      (load_data (some rooms) (some students) db).2.1 = none ∧
      (load_data (some rooms) (some students) db).2.2 = db₁ ∧
      load_data (some rooms) (some students) db₁ =
        ([Event.commit], none, db₁) := by
  obtain ⟨evR, dbR, heqR, hstR, hmonoR, hsrcR⟩ := insert_rooms_ok rooms db hrk
  have hs' : ∀ s ∈ students, s.id.isSome ∧ s.name.isSome ∧ s.room.isSome ∧
      s.sex.isSome ∧ s.birthday.isSome ∧
      (∀ j, s.room = some j → j ∈ roomIds dbR) := by
    intro s hs
    obtain ⟨h1, h2, h3, h4, h5⟩ := hsk s hs
    refine ⟨h1, h2, h3, h4, h5, ?_⟩
    intro j hj
    obtain ⟨r, hr, hrj⟩ := List.mem_filterMap.mp (hfk s hs j hj)
    exact hsrcR r hr j hrj
  obtain ⟨evS, dbS, heqS, hroS, hmonoS, hsrcS⟩ :=
    insert_students_ok students dbR hs'
  have hroomIdsS : roomIds dbS = roomIds dbR := congrArg (List.map Room.id) hroS
  refine ⟨dbS, by simp [load_data, heqR, heqS], by simp [load_data, heqR, heqS], ?_⟩
  have hskipR : insert_rooms rooms dbS = ([], Except.ok dbS) := by
    apply insert_rooms_skip
    intro r hr
    obtain ⟨h1, h2⟩ := hrk r hr
    obtain ⟨i, hi⟩ := Option.isSome_iff_exists.mp h1
    refine ⟨i, hi, h2, ?_⟩
    rw [hroomIdsS]
    exact hsrcR r hr i hi
  have hskipS : insert_students students dbS = ([], Except.ok dbS) := by
    apply insert_students_skip
    intro s hs
    obtain ⟨h1, h2, h3, h4, h5⟩ := hsk s hs
    obtain ⟨i, hi⟩ := Option.isSome_iff_exists.mp h1
    exact ⟨i, hi, h2, h3, h4, h5, hsrcS s hs i hi⟩
  simp [load_data, hskipR, hskipS]

/-- Witness for C1 on a two-room, one-student source pair. -/
theorem load_data_idempotent_witness :
    ∃ db₁ : DB,
      (load_data (some [⟨some 1, some "Room 1"⟩, ⟨some 2, some "Room 2"⟩])
        (some [⟨some 1, some "Alice", some 1, some "F", some ⟨2000, 1, 1⟩⟩])
        emptyDB).2.1 = none ∧
      (load_data (some [⟨some 1, some "Room 1"⟩, ⟨some 2, some "Room 2"⟩])
        (some [⟨some 1, some "Alice", some 1, some "F", some ⟨2000, 1, 1⟩⟩])
        emptyDB).2.2 = db₁ ∧
      load_data (some [⟨some 1, some "Room 1"⟩, ⟨some 2, some "Room 2"⟩])
        (some [⟨some 1, some "Alice", some 1, some "F", some ⟨2000, 1, 1⟩⟩])
        db₁ = ([Event.commit], none, db₁) := by
  refine load_data_idempotent _ _ emptyDB (by decide) (by decide) (by decide)
    (by decide) ?_
  intro s hs j hj
  obtain rfl := List.mem_singleton.mp hs
  obtain rfl : j = 1 := by
    injection hj with hj'
    exact hj'.symm
  decide

instance : IsTotal DiffRow (fun a b => b.2.2 ≤ a.2.2) :=
  ⟨fun a b => le_total b.2.2 a.2.2⟩

instance : IsTrans DiffRow (fun a b => b.2.2 ≤ a.2.2) :=
  ⟨fun _ _ _ hab hbc => le_trans hbc hab⟩

instance : IsTotal AvgRow (fun a b => a.2.2 ≤ b.2.2) :=
  ⟨fun a b => le_total a.2.2 b.2.2⟩

instance : IsTrans AvgRow (fun a b => a.2.2 ≤ b.2.2) :=
  ⟨fun _ _ _ hab hbc => le_trans hab hbc⟩

/-- **C3.** The highest-age-difference report keeps only rooms with at least
one student (inner join); each kept row's value is the whole-year calendar
difference between the oldest (`MIN`) and youngest (`MAX`) birthday of the
room, by proper calendar-year subtraction (one less than the year-field
difference when the later month/day precedes the earlier); only differences
strictly greater than `0` are kept; the rows are ordered descending by the
difference and at most the first `5` are returned (all qualifying rooms
appear when at most `5` qualify). -/
theorem get_highest_age_diff_correct (db : DB) :
    (get_highest_age_diff_rows db).length ≤ 5 ∧
    List.Sorted (fun a b : DiffRow => b.2.2 ≤ a.2.2)
      (get_highest_age_diff_rows db) ∧
    (∀ row ∈ get_highest_age_diff_rows db, ∃ r ∈ db.rooms,
      ∃ b bs, (studentsInRoom db r.id).map Student.birthday = b :: bs ∧
        row = (r.id, r.name, ageYears (listMaxDate b bs) (listMinDate b bs)) ∧
        0 < row.2.2) ∧
    ((highest_age_diff_groups db).length ≤ 5 →
      ∀ row ∈ highest_age_diff_groups db,
        row ∈ get_highest_age_diff_rows db) ∧
    (∀ a b : Date, ageYears a b =
      (a.year : Int) - (b.year : Int) - (if mdBefore a b then 1 else 0)) := by
  refine ⟨?_, ?_, ?_, ?_, ageYears_eq_completedYears⟩
  · rw [get_highest_age_diff_rows, List.length_take]
    exact min_le_left _ _
  · exact List.Pairwise.sublist (List.take_sublist 5 _)
      (List.sorted_insertionSort _ (highest_age_diff_groups db))
  · intro row hrow
    have h1 : row ∈ List.insertionSort (fun a b : DiffRow => b.2.2 ≤ a.2.2)
        (highest_age_diff_groups db) := List.mem_of_mem_take hrow
    have h2 : row ∈ highest_age_diff_groups db :=
      (List.mem_insertionSort _).mp h1
    obtain ⟨r, hr, hf⟩ := List.mem_filterMap.mp h2
    refine ⟨r, hr, ?_⟩
    rcases hb : (studentsInRoom db r.id).map Student.birthday with _ | ⟨b, bs⟩
    · rw [hb] at hf
      simp at hf
    · rw [hb] at hf
      have hf2 : (if 0 < ageYears (listMaxDate b bs) (listMinDate b bs) then
          some ((r.id, r.name,
            ageYears (listMaxDate b bs) (listMinDate b bs)) : DiffRow)
          else none) = some row := hf
      by_cases hd : 0 < ageYears (listMaxDate b bs) (listMinDate b bs)
      · rw [if_pos hd] at hf2
        injection hf2 with hf'
        refine ⟨b, bs, rfl, hf'.symm, ?_⟩
        rw [← hf']
        exact hd
      · rw [if_neg hd] at hf2
        simp at hf2
  · intro hlen row hrow
    rw [get_highest_age_diff_rows,
      List.take_of_length_le (by rw [List.length_insertionSort]; exact hlen)]
    exact (List.mem_insertionSort _).mpr hrow

/-- Witness for C3 at the specification's worked example: the 2000-01-01 vs
1998-01-01 room yields exactly 2 years, the single-student room is filtered
out, and the one qualifying group is returned. -/
theorem get_highest_age_diff_correct_witness :
    get_highest_age_diff_rows
        ⟨[⟨1, "Room 1"⟩, ⟨2, "Room 2"⟩],
         [⟨1, "Alice", 1, "F", ⟨2000, 1, 1⟩⟩,
          ⟨2, "Bob", 1, "M", ⟨1998, 1, 1⟩⟩,
          ⟨3, "Charlie", 2, "M", ⟨1999, 1, 1⟩⟩]⟩ = [(1, "Room 1", 2)] ∧
    (∀ row ∈ highest_age_diff_groups
        ⟨[⟨1, "Room 1"⟩, ⟨2, "Room 2"⟩],
         [⟨1, "Alice", 1, "F", ⟨2000, 1, 1⟩⟩,
          ⟨2, "Bob", 1, "M", ⟨1998, 1, 1⟩⟩,
          ⟨3, "Charlie", 2, "M", ⟨1999, 1, 1⟩⟩]⟩,
      row ∈ get_highest_age_diff_rows
        ⟨[⟨1, "Room 1"⟩, ⟨2, "Room 2"⟩],
         [⟨1, "Alice", 1, "F", ⟨2000, 1, 1⟩⟩,
          ⟨2, "Bob", 1, "M", ⟨1998, 1, 1⟩⟩,
          ⟨3, "Charlie", 2, "M", ⟨1999, 1, 1⟩⟩]⟩) := by
  constructor
  · decide
  · exact (get_highest_age_diff_correct
      ⟨[⟨1, "Room 1"⟩, ⟨2, "Room 2"⟩],
       [⟨1, "Alice", 1, "F", ⟨2000, 1, 1⟩⟩,
        ⟨2, "Bob", 1, "M", ⟨1998, 1, 1⟩⟩,
        ⟨3, "Charlie", 2, "M", ⟨1999, 1, 1⟩⟩]⟩).2.2.2.1 (by decide)

/-- **C4.** The lowest-average-age report keeps only rooms with at least one
student (inner join); each kept row's value is the mean of the students'
completed-year ages as of the current date, rounded to two decimal places by
the `NUMERIC(10,2)` cast; rows are ordered ascending by that average and at
most the first 5 are returned (all qualifying rooms appear when at most 5
qualify); the average reaches the formatter as a `Decimal` cell that the
formatter converts to a plain float, not a fixed-point string. -/
theorem get_lowest_avg_age_correct (today : Date) (db : DB) :
    (get_lowest_avg_age_rows today db).length ≤ 5 ∧
    List.Sorted (fun a b : AvgRow => a.2.2 ≤ b.2.2)
      (get_lowest_avg_age_rows today db) ∧
    (∀ row ∈ get_lowest_avg_age_rows today db, ∃ r ∈ db.rooms,
      studentsInRoom db r.id ≠ [] ∧
      row = (r.id, r.name, round2 (listAvg ((studentsInRoom db r.id).map
        (fun s => (ageYears today s.birthday : ℚ)))))) ∧
    ((lowest_avg_age_groups today db).length ≤ 5 →
      ∀ row ∈ lowest_avg_age_groups today db,
        row ∈ get_lowest_avg_age_rows today db) ∧
    (∀ q, pyConvert (Value.vDec q) = PyVal.pFloat q) ∧
    (∀ fmt, get_lowest_avg_age_rooms today db fmt =
      format_output ["room_id", "name", "avg_age"]
        ((get_lowest_avg_age_rows today db).map avgRowValues) fmt) := by
  refine ⟨?_, ?_, ?_, ?_, fun _ => rfl, fun _ => rfl⟩
  · rw [get_lowest_avg_age_rows, List.length_take]
    exact min_le_left _ _
  · exact List.Pairwise.sublist (List.take_sublist 5 _)
      (List.sorted_insertionSort _ (lowest_avg_age_groups today db))
  · intro row hrow
    have h1 : row ∈ List.insertionSort (fun a b : AvgRow => a.2.2 ≤ b.2.2)
        (lowest_avg_age_groups today db) := List.mem_of_mem_take hrow
    have h2 : row ∈ lowest_avg_age_groups today db :=
      (List.mem_insertionSort _).mp h1
    obtain ⟨r, hr, hf⟩ := List.mem_filterMap.mp h2
    refine ⟨r, hr, ?_⟩
    rcases hs : studentsInRoom db r.id with _ | ⟨s, ss⟩
    · rw [hs] at hf
      simp at hf
    · rw [hs] at hf
      have hf2 : some ((r.id, r.name, round2 (listAvg ((s :: ss).map
          (fun st => (ageYears today st.birthday : ℚ))))) : AvgRow) =
          some row := hf
      injection hf2 with hf'
      exact ⟨List.cons_ne_nil s ss, hf'.symm⟩
  · intro hlen row hrow
    rw [get_lowest_avg_age_rows,
      List.take_of_length_le (by rw [List.length_insertionSort]; exact hlen)]
    exact (List.mem_insertionSort _).mpr hrow

/-- Witness for C4 on a single room with a single student. -/
theorem get_lowest_avg_age_correct_witness :
    get_lowest_avg_age_rows ⟨2026, 10, 12⟩
        ⟨[⟨1, "Room 1"⟩], [⟨1, "Alice", 1, "F", ⟨2000, 1, 1⟩⟩]⟩ =
      [(1, "Room 1",
        round2 (listAvg [((ageYears ⟨2026, 10, 12⟩ ⟨2000, 1, 1⟩ : Int) : ℚ)]))] ∧
    (get_lowest_avg_age_rows ⟨2026, 10, 12⟩
        ⟨[⟨1, "Room 1"⟩], [⟨1, "Alice", 1, "F", ⟨2000, 1, 1⟩⟩]⟩).length ≤ 5 := by
  refine ⟨rfl, (get_lowest_avg_age_correct ⟨2026, 10, 12⟩
    ⟨[⟨1, "Room 1"⟩], [⟨1, "Alice", 1, "F", ⟨2000, 1, 1⟩⟩]⟩).1⟩

end InnowiseTask
